import Mathlib

/-!
Verification development for the PyPRSVT repository.

The definitions below are shallow embeddings of the code in
`PyPRSVT/preprocessing/svcomp.py` and `scripts/model_induction.py`.
Python regular expressions are embedded as a small regex datatype with a
derivative-based matcher; `re.search` / `re.match` become `research` /
`matchesPrefixB`.  The file system is passed explicitly as a function
`String → Option String` (a path maps to `some contents` exactly when the
file exists).  External collaborators (graph loading, the WL kernel) are
parameters of the embedding.
-/

set_option autoImplicit false

namespace PyPRSVT

/-- The `Status` enum of `svcomp.py` (`true`, `false`, `unknown`). -/
inductive Status where
  | true
  | false
  | unknown
deriving DecidableEq, Repr

/-- The `PropertyType` enum of `svcomp.py`. -/
inductive PropertyType where
  | unreachability
  | memory_safety
  | termination
deriving DecidableEq, Repr

/-! ## Regular expressions

A minimal regex language sufficient for every pattern occurring in the
source: character classes, concatenation, alternation and Kleene star.
Matching is implemented with Brzozowski derivatives; `mkSeq` / `mkAlt`
are smart constructors that keep derivatives small. -/

/-- Regex syntax: failure, empty word, character class, concatenation,
alternation, Kleene star. -/
inductive RE where
  | fail
  | eps
  | cls (f : Char → Bool)
  | seq (a b : RE)
  | alt (a b : RE)
  | star (a : RE)

/-- Does the regex accept the empty word? -/
def nullable : RE → Bool
  | .fail => false
  | .eps => true
  | .cls _ => false
  | .seq a b => nullable a && nullable b
  | .alt a b => nullable a || nullable b
  | .star _ => true

/-- Smart concatenation (propagates failure, cancels `eps`). -/
def mkSeq : RE → RE → RE
  | .fail, _ => .fail
  | _, .fail => .fail
  | .eps, r => r
  | r, .eps => r
  | a, b => .seq a b

/-- Smart alternation (cancels failure). -/
def mkAlt : RE → RE → RE
  | .fail, r => r
  | r, .fail => r
  | a, b => .alt a b

/-- Brzozowski derivative of a regex with respect to a character. -/
def deriv : RE → Char → RE
  | .fail, _ => .fail
  | .eps, _ => .fail
  | .cls f, c => if f c then .eps else .fail
  | .seq a b, c =>
      if nullable a then mkAlt (mkSeq (deriv a c) b) (deriv b c)
      else mkSeq (deriv a c) b
  | .alt a b, c => mkAlt (deriv a c) (deriv b c)
  | .star a, c => mkSeq (deriv a c) (.star a)

/-- Does some prefix of `s` match the regex?  This is the embedding of
Python's `re.match` (anchored at the start, not at the end). -/
def matchesPrefixB (r : RE) : List Char → Bool
  | [] => nullable r
  | c :: rest => nullable r || matchesPrefixB (deriv r c) rest

/-- Does some substring of `s` match the regex?  This is the embedding of
Python's `re.search`. -/
def research (r : RE) : List Char → Bool
  | [] => nullable r
  | c :: rest => matchesPrefixB r (c :: rest) || research r rest

/-- Declarative matching semantics for `RE`, used to state theorems
about the derivative-based matcher. -/
inductive RMatch : RE → List Char → Prop where
  | eps : RMatch .eps []
  | cls {f : Char → Bool} {c : Char} : f c = true → RMatch (.cls f) [c]
  | seq {a b : RE} {s t : List Char} :
      RMatch a s → RMatch b t → RMatch (.seq a b) (s ++ t)
  | altL {a b : RE} {s : List Char} : RMatch a s → RMatch (.alt a b) s
  | altR {a b : RE} {s : List Char} : RMatch b s → RMatch (.alt a b) s
  | starNil {a : RE} : RMatch (.star a) []
  | starCons {a : RE} {s t : List Char} :
      RMatch a s → RMatch (.star a) t → RMatch (.star a) (s ++ t)

/-- Predicate `SMatch r s`: some substring of `s` is in the language of `r`
(the declarative counterpart of `re.search`). -/
def SMatch (r : RE) (s : String) : Prop :=
  ∃ pre mid post, s.data = pre ++ mid ++ post ∧ RMatch r mid

/-- Literal regex for a fixed character sequence. -/
def litCharsRE (w : List Char) : RE :=
  w.foldr (fun c r => RE.seq (RE.cls (fun x => x == c)) r) RE.eps

/-- Literal regex for a fixed string. -/
def litRE (w : String) : RE :=
  litCharsRE w.data

/-- Concatenation of a list of regexes. -/
def seqRE (l : List RE) : RE :=
  l.foldr RE.seq RE.eps

/-- Greedy optional `r?`. -/
def optRE (r : RE) : RE := RE.alt r RE.eps

/-- One-or-more `r+`. -/
def plusRE (r : RE) : RE := RE.seq r (RE.star r)

/-! ## Character classes

ASCII readings of the character classes occurring in the source patterns.
(Python 3's `\w`/`\s` are Unicode-aware; all inputs handled by the
repository are ASCII, where these definitions agree.) -/

/-- Class `\w` = `[a-zA-Z0-9_]` (ASCII). -/
def isWordC (c : Char) : Bool := c.isAlphanum || c == '_'

/-- Class `\s` = `[ \t\n\r\f\v]` (ASCII). -/
def isSpaceC (c : Char) : Bool :=
  c == ' ' || c == '\t' || c == '\n' || c == '\x0d' || c == '\x0c' || c == '\x0b'

/-- The class `[0-9-_]` of the category file-name pattern. -/
def isTsC (c : Char) : Bool := c.isDigit || c == '-' || c == '_'

/-- The class `[-a-zA-Z0-9_\.]` of the task naming-convention pattern. -/
def isNamingA (c : Char) : Bool := c == '-' || c.isAlphanum || c == '_' || c == '.'

/-- The class `[-a-zA-Z0-9_]` of the task naming-convention pattern. -/
def isNamingB (c : Char) : Bool := c == '-' || c.isAlphanum || c == '_'

/-- The class `[_\s\w\(\)]` of the property patterns. -/
def isPropArgC (c : Char) : Bool :=
  c == '_' || isSpaceC c || isWordC c || c == '(' || c == ')'

/-! ## POSIX path helpers

Embeddings of `os.path.basename`, `os.path.dirname`, `os.path.splitext`
and `os.path.join` (POSIX flavour), as used by `svcomp.py` and
`model_induction.py`. -/

/-- Split a character list at the last `'/'`.  Returns the head part
(including the trailing `'/'`, empty when there is no slash) and the
part after the last slash. -/
def splitLastSlash (l : List Char) : List Char × List Char :=
  let rev := l.reverse
  let base := rev.takeWhile (fun c => !(c == '/'))
  let head := rev.dropWhile (fun c => !(c == '/'))
  (head.reverse, base.reverse)

/-- Embedding of `os.path.basename`: everything after the last `'/'`. -/
def basenameOf (p : String) : List Char :=
  (splitLastSlash p.data).2

/-- Embedding of `os.path.dirname`: everything before the last `'/'`, with trailing
slashes stripped unless the result consists of slashes only. -/
def dirnameOf (p : String) : String :=
  let head := (splitLastSlash p.data).1
  if head.isEmpty then ""
  else if head.all (fun c => c == '/') then ⟨head⟩
  else ⟨(head.reverse.dropWhile (fun c => c == '/')).reverse⟩

/-- The root part of `os.path.splitext`: drop the extension introduced by
the last dot of the base name, provided some earlier character of the
base name is not a dot (leading dots never start an extension). -/
def splitextRoot (p : String) : String :=
  let (head, base) := splitLastSlash p.data
  let revBase := base.reverse
  let fromDot := revBase.dropWhile (fun c => !(c == '.'))
  match fromDot with
  | [] => p
  | _ :: beforeDotRev =>
      if (beforeDotRev.reverse).any (fun c => !(c == '.')) then
        ⟨head ++ beforeDotRev.reverse⟩
      else p

/-- Embedding of `os.path.join a b` for a `b` that is not absolute. -/
def joinPath (a b : String) : String :=
  if a = "" then b
  else if a.data.getLast? = some '/' then a ++ b
  else a ++ "/" ++ b

/-! ## Association lists with Python `dict` semantics

`dictInsert` overwrites the value of an existing key in place (keeping
its position) and otherwise appends, exactly like insertion into a
Python `dict` (and like `DataFrame.loc[key] = row`). -/

/-- Insert with overwrite-in-place semantics. -/
def dictInsert {α β : Type} [DecidableEq α] :
    List (α × β) → α → β → List (α × β)
  | [], k, v => [(k, v)]
  | (k', v') :: rest, k, v =>
      if k = k' then (k, v) :: rest else (k', v') :: dictInsert rest k v

/-- First-match lookup. -/
def dictFind {α β : Type} [DecidableEq α] :
    List (α × β) → α → Option β
  | [], _ => none
  | (k', v') :: rest, k => if k = k' then some v' else dictFind rest k

/-- Build a dict from a list of pairs, later entries overwriting earlier
ones (= Python `dict(pairs)`). -/
def dictOf {α β : Type} [DecidableEq α] (l : List (α × β)) : List (α × β) :=
  l.foldl (fun m kv => dictInsert m kv.1 kv.2) []

/-! ## svcomp.py: status resolution and task-metadata extraction -/

/-- The error taxonomy of the spec, one constructor per raise site of the
source.  `missingColumns` is the `assert ret` of `_columns_to_dict`;
`keyError k` is a Python `KeyError` on the column dict `r[k]`;
`missingExpectedStatus` is `MissingExpectedStatusException`;
`missingPropertySpec` / `unclassifiableProperty` are the two raise sites of
`_extract_property_type` (both are `MissingPropertyTypeException` in the
source, with the distinct messages `'Missing ALL.prp or {filename}.prp'`
and `'Cannot determine property type from prp file'`);
`noObjectsToConcatenate` is the `ValueError` pandas raises when
`pd.concat` receives no objects. -/
inductive ParseErr where
  | missingColumns
  | keyError (k : String)
  | missingExpectedStatus
  | missingPropertySpec
  | unclassifiableProperty
  | noObjectsToConcatenate
deriving DecidableEq, Repr

/-- Embedding of `_match_status_str`: `re.search(r'true', s)` wins over
`re.search(r'false', s)`, otherwise `unknown`. -/
def matchStatusStr (s : String) : Status :=
  if research (litRE "true") s.data then Status.true
  else if research (litRE "false") s.data then Status.false
  else Status.unknown

/-- Continuation of the naming-convention matcher after the ` -` literal:
the suffix `[-a-zA-Z0-9_]+\.(i|c)` of the pattern of
`_extract_expected_status`, as a prefix match (`re.match` does not anchor
at the end).  Since `'.'` is not in the class, the greedy `+` is
deterministic here. -/
def namingTail (s : List Char) : Bool :=
  let bs := s.takeWhile isNamingB
  let rest := s.dropWhile isNamingB
  !bs.isEmpty &&
    match rest with
    | '.' :: e :: _ => e == 'i' || e == 'c'
    | _ => false

/-- After a literal `'_'`: the `(true|false)-[-a-zA-Z0-9_]+\.(i|c)` part
of the naming pattern.  Returns the captured group on success. -/
def namingTok (s : List Char) : Option String :=
  if "true-".data.isPrefixOf s then
    if namingTail (s.drop 5) then some "true" else none
  else if "false-".data.isPrefixOf s then
    if namingTail (s.drop 6) then some "false" else none
  else none

/-- Body of the naming-convention matcher, after at least one
`[-a-zA-Z0-9_\.]` character has been consumed.  At every position the
greedy `[-a-zA-Z0-9_\.]+` first tries to extend (the recursive call) and
only on failure matches the literal `'_'` here, exactly like Python's
backtracking, so the returned capture agrees with `match.group(1)`. -/
def namingCont : List Char → Option String
  | [] => none
  | c :: rest =>
      (if isNamingA c then namingCont rest else none).orElse
        (fun _ => if c == '_' then namingTok rest else none)

/-- Embedding of `re.match(r'[-a-zA-Z0-9_\.]+_(true|false)-([-a-zA-Z0-9_]+)\.(i|c)', s)`,
returning `group(1)` on success. -/
def namingMatch (s : List Char) : Option String :=
  match s with
  | [] => none
  | c :: rest => if isNamingA c then namingCont rest else none

/-- Embedding of `_extract_expected_status`: match the base file name against the
naming convention; on success feed the captured token to
`_match_status_str`, otherwise raise. -/
def extractExpectedStatus (vtask_path : String) : Except ParseErr Status :=
  match namingMatch (basenameOf vtask_path) with
  | some tok => Except.ok (matchStatusStr tok)
  | none => Except.error ParseErr.missingExpectedStatus

/-- The pattern
`CHECK\([_\s\w\(\)]+,\s*LTL\(\s*G\s*!\s*call\([_\w\s\(\)]+\)\s*\)\s*\)`. -/
def unreachRE : RE :=
  seqRE [litRE "CHECK(", plusRE (RE.cls isPropArgC), litRE ",",
    RE.star (RE.cls isSpaceC), litRE "LTL(", RE.star (RE.cls isSpaceC),
    litRE "G", RE.star (RE.cls isSpaceC), litRE "!",
    RE.star (RE.cls isSpaceC), litRE "call(", plusRE (RE.cls isPropArgC),
    litRE ")", RE.star (RE.cls isSpaceC), litRE ")",
    RE.star (RE.cls isSpaceC), litRE ")"]

/-- The pattern `CHECK\([_\s\w\(\)]+,\s*LTL\(\s*G\s*valid-\w+\)\s*\)`. -/
def memSafetyRE : RE :=
  seqRE [litRE "CHECK(", plusRE (RE.cls isPropArgC), litRE ",",
    RE.star (RE.cls isSpaceC), litRE "LTL(", RE.star (RE.cls isSpaceC),
    litRE "G", RE.star (RE.cls isSpaceC), litRE "valid-",
    plusRE (RE.cls isWordC), litRE ")", RE.star (RE.cls isSpaceC),
    litRE ")"]

/-- The pattern `CHECK\([_\s\w\(\)]+,\s*LTL\(\s*F\s*end\s*\)\s*\)`. -/
def terminationRE : RE :=
  seqRE [litRE "CHECK(", plusRE (RE.cls isPropArgC), litRE ",",
    RE.star (RE.cls isSpaceC), litRE "LTL(", RE.star (RE.cls isSpaceC),
    litRE "F", RE.star (RE.cls isSpaceC), litRE "end",
    RE.star (RE.cls isSpaceC), litRE ")", RE.star (RE.cls isSpaceC),
    litRE ")"]

/-- Classification of a `.prp` file's contents: the three pattern
searches of `_extract_property_type`, tried in source order. -/
def classifyPrp (content : String) : Except ParseErr PropertyType :=
  if research unreachRE content.data then Except.ok PropertyType.unreachability
  else if research memSafetyRE content.data then Except.ok PropertyType.memory_safety
  else if research terminationRE content.data then Except.ok PropertyType.termination
  else Except.error ParseErr.unclassifiableProperty

/-- Embedding of `_extract_property_type`.  The file system is `fs`; `fs path = some c`
means the file exists with contents `c`.  First `<task-stem>.prp` is
consulted, then the sibling `ALL.prp`. -/
def extractPropertyType (fs : String → Option String) (vtask_path : String) :
    Except ParseErr PropertyType :=
  match fs (splitextRoot vtask_path ++ ".prp") with
  | some content => classifyPrp content
  | none =>
      match fs (joinPath (dirnameOf vtask_path) "ALL.prp") with
      | some content => classifyPrp content
      | none => Except.error ParseErr.missingPropertySpec

/-! ## svcomp.py: XML result logs -/

/-- One `<column title=... value=.../>` tag. -/
structure XmlColumn where
  title : String
  value : String
deriving DecidableEq, Repr

/-- One `<sourcefile>` entry: the task path, the optional `options`
attribute, and the metric columns. -/
structure SourceFile where
  name : String
  options : Option String
  columns : List XmlColumn
deriving DecidableEq, Repr

/-- A result log: the top-level `benchmarkname` attribute and the
sequence of `<sourcefile>` entries. -/
structure BenchXml where
  benchmarkname : String
  sourcefiles : List SourceFile
deriving DecidableEq, Repr

/-- Embedding of `_columns_to_dict` plus the `assert ret` guard. -/
def columnsToDict (cols : List XmlColumn) : Except ParseErr (List (String × String)) :=
  let ret := cols.foldl (fun m c => dictInsert m c.title c.value) []
  if ret.isEmpty then Except.error ParseErr.missingColumns else Except.ok ret

/-- Access `r[k]` on the column dict: Python raises `KeyError` when absent. -/
def colGet (r : List (String × String)) (k : String) : Except ParseErr String :=
  match dictFind r k with
  | some v => Except.ok v
  | none => Except.error (ParseErr.keyError k)

/-- A cell of the resulting data frame.  `floatv s` stands for the Python
value `float(s)` and `intv s` for `int(s)`: the numeric decoding itself
is external to the verified core and no claim inspects those numbers, so
cells keep the exact source string they are parsed from. -/
inductive Cell where
  | str (s : String)
  | stat (v : Status)
  | floatv (s : String)
  | intv (s : String)
  | prop (v : PropertyType)
deriving DecidableEq, Repr

/-- A pandas data frame: named columns and label-indexed rows. -/
structure DataFrame where
  columns : List String
  rows : List (String × List Cell)
deriving DecidableEq, Repr

/-- The eight columns the frame of `svcomp_xml_to_dataframe` starts with. -/
def initialColumns : List String :=
  ["options", "status", "status_msg", "cputime", "walltime", "mem_usage",
   "expected_status", "property_type"]

/-- Processing of one `<sourcefile>` entry, in the evaluation order of the
row literal of `svcomp_xml_to_dataframe` (column-dict construction, then
the `r[...]` accesses left to right, then the two extractors).
`cputime`/`walltime` lose their final character (`[:-1]`). -/
def processSourceFile (fs : String → Option String) (sf : SourceFile) :
    Except ParseErr (String × List Cell) := do
  let r ← columnsToDict sf.columns
  let statusStr ← colGet r "status"
  let cputime ← colGet r "cputime"
  let walltime ← colGet r "walltime"
  let mem ← colGet r "memUsage"
  let expected ← extractExpectedStatus sf.name
  let ptype ← extractPropertyType fs sf.name
  return (sf.name,
    [Cell.str (sf.options.getD ""),
     Cell.stat (matchStatusStr statusStr),
     Cell.str statusStr,
     Cell.floatv ⟨cputime.data.dropLast⟩,
     Cell.floatv ⟨walltime.data.dropLast⟩,
     Cell.intv mem,
     Cell.stat expected,
     Cell.prop ptype])

/-- One iteration of the row loop of `svcomp_xml_to_dataframe`:
process the entry and perform `df.loc[path] = row`. -/
def addRow (fs : String → Option String) (acc : List (String × List Cell))
    (sf : SourceFile) : Except ParseErr (List (String × List Cell)) := do
  let nr ← processSourceFile fs sf
  return dictInsert acc nr.1 nr.2

/-- Embedding of `svcomp_xml_to_dataframe`: build the eight-column frame and add one
row per `<sourcefile>` (in order, `df.loc[path] = row` overwriting an
existing label in place); the first failing entry aborts the parse. -/
def svcompXmlToDataframe (fs : String → Option String) (xml : BenchXml) :
    Except ParseErr (String × DataFrame) := do
  let rows ← xml.sourcefiles.foldlM (addRow fs) ([] : List (String × List Cell))
  return (xml.benchmarkname, ⟨initialColumns, rows⟩)

/-! ## svcomp.py: read_category -/

/-- The discovery pattern of `read_category`:
`\w+\.[0-9-_]+\.(witnesscheck\.[0-9-_]+\.)?results\.sv-comp15\.{category}\.xml`
(with the category name interpolated literally; the category names used by
the repository contain no regex metacharacters). -/
def categoryRE (category : String) : RE :=
  seqRE [plusRE (RE.cls isWordC), litRE ".", plusRE (RE.cls isTsC), litRE ".",
    optRE (seqRE [litRE "witnesscheck.", plusRE (RE.cls isTsC), litRE "."]),
    litRE "results.sv-comp15.", litRE category, litRE ".xml"]

/-- Embedding of `pattern.match(file)` of `read_category` (a prefix match). -/
def categoryMatch (category : String) (file : String) : Bool :=
  matchesPrefixB (categoryRE category) file.data

/-- Sequential parsing of the matching files: results are appended in
directory order and the first failing parse aborts (uncaught exception in
the `for` loop of `read_category`). -/
def parseAll (p : String → Except ParseErr (String × DataFrame)) :
    List String → Except ParseErr (List (String × DataFrame))
  | [] => Except.ok []
  | f :: rest => do
    let r ← p f
    let rs ← parseAll p rest
    return r :: rs

/-- Ordered insertion by tool name (strictly before the first entry with
a larger key). -/
def insKey (x : String × DataFrame) :
    List (String × DataFrame) → List (String × DataFrame)
  | [] => [x]
  | y :: ys => if x.1 < y.1 then x :: y :: ys else y :: insKey x ys

/-- Sort a tool → frame dict by tool name.  `pd.concat` with a mapping
argument uses the sorted keys of the mapping. -/
def sortK (l : List (String × DataFrame)) : List (String × DataFrame) :=
  l.foldr insKey []

/-- Embedding of `read_category`: filter the directory listing through the naming
pattern, parse each matching file in order, collapse the results into a
dict keyed by tool name (`dict(category_results)`, later entries
overwriting earlier ones), and concatenate column-wise
(`pd.concat(..., axis=1)`: the per-tool column groups in sorted key
order, rows outer-joined on the task path).  `xmlOf` maps a file name of
the listing to its deserialized XML contents.  pandas raises when the
dict is empty. -/
def readCategory (fs : String → Option String) (xmlOf : String → BenchXml)
    (listing : List String) (category : String) :
    Except ParseErr (List (String × DataFrame)) := do
  let rs ← parseAll (fun f => svcompXmlToDataframe fs (xmlOf f))
    (listing.filter (fun f => categoryMatch category f))
  let d := dictOf rs
  if d.isEmpty then Except.error ParseErr.noObjectsToConcatenate
  else return sortK d

/-- The task paths (row labels) of a frame. -/
def rowKeys (df : DataFrame) : List String :=
  df.rows.map Prod.fst

/-- The row index of the column-wise concatenation: the union of the row
labels of all the frames (outer join). -/
def unionKeys (ts : List (String × DataFrame)) : List String :=
  (ts.flatMap (fun td => rowKeys td.2)).dedup

/-- The cell group of tool `t` at task row `p` of the joined table;
`none` is pandas' missing value (`NaN` row) for a task absent from that
tool's frame. -/
def joinedLookup (ts : List (String × DataFrame)) (t p : String) :
    Option (List Cell) :=
  match dictFind ts t with
  | some df => dictFind df.rows p
  | none => none

/-- Total projection out of `Except` (used only to name concrete values
in closed statements). -/
def okD {ε α : Type} (e : Except ε α) (d : α) : α :=
  match e with
  | Except.ok a => a
  | Except.error _ => d

instance {ε α : Type} [DecidableEq ε] [DecidableEq α] :
    DecidableEq (Except ε α) := fun x y =>
  match x, y with
  | Except.ok a, Except.ok b =>
      if h : a = b then isTrue (h ▸ rfl)
      else isFalse (fun hc => h (Except.ok.inj hc))
  | Except.error e, Except.error f =>
      if h : e = f then isTrue (h ▸ rfl)
      else isFalse (fun hc => h (Except.error.inj hc))
  | Except.ok _, Except.error _ => isFalse (fun hc => Except.noConfusion hc)
  | Except.error _, Except.ok _ => isFalse (fun hc => Except.noConfusion hc)

/-! ## model_induction.py: dump_gram and the gram-path manifest -/

/-- Observable effects of `dump_gram`: an invocation of the external
kernel's `compare_list_normalized` for a hyperparameter pair, and an
`np.save` of its result (`K` is the kernel's matrix type; `np.save`
appends `.npy` to the given path). -/
inductive GramEff (K : Type) where
  | kernelCall (h D : Nat)
  | save (path : String) (val : K)
deriving DecidableEq, Repr

/-- The `ValueError('Graph {} not found.')` of `dump_gram`. -/
inductive GramErr where
  | graphNotFound (p : String)
deriving DecidableEq, Repr

/-- The artifact path `out_dir/K_h_{h}_D_{D}.gram` (before `np.save`
appends `.npy`). -/
def gramBasePath (out_dir : String) (h D : Nat) : String :=
  joinPath out_dir ("K_h_" ++ toString h ++ "_D_" ++ toString D ++ ".gram")

/-- One iteration of the computation loop of `dump_gram`: invoke the
kernel on the full graph list, save the matrix, record the dict entry. -/
def dumpStep {G τ K : Type} (kernel : List G → List τ → Nat → Nat → K)
    (graphs : List G) (types : List τ) (out_dir : String)
    (acc : List (GramEff K) × List ((Nat × Nat) × String)) (hD : Nat × Nat) :
    List (GramEff K) × List ((Nat × Nat) × String) :=
  (acc.1 ++ [GramEff.kernelCall hD.1 hD.2,
             GramEff.save (gramBasePath out_dir hD.1 hD.2)
               (kernel graphs types hD.1 hD.2)],
   dictInsert acc.2 hD (gramBasePath out_dir hD.1 hD.2 ++ ".npy"))

/-- Embedding of `dump_gram`.  `isfile` is the existence check, `load` is
`nx.read_gpickle`, `kernel` is `GK_WL().compare_list_normalized` (both
external).  The first missing graph path raises before the computation
loop; otherwise, for every `(h, D)` of `itertools.product(h_set, D_set)`
in order, the kernel is invoked, the matrix saved, and the dict entry
`(h, D) ↦ path + '.npy'` inserted.  The first component of the result is
the list of effects actually performed. -/
def dumpGram {G τ K : Type} (isfile : String → Bool) (load : String → G)
    (kernel : List G → List τ → Nat → Nat → K)
    (graph_paths : List String) (types : List τ) (h_set D_set : List Nat)
    (out_dir : String) :
    List (GramEff K) × Except GramErr (List ((Nat × Nat) × String)) :=
  match graph_paths.find? (fun p => !isfile p) with
  | some p => ([], Except.error (GramErr.graphNotFound p))
  | none =>
      let out := (h_set.product D_set).foldl
        (dumpStep kernel (graph_paths.map load) types out_dir) ([], [])
      (out.1, Except.ok out.2)

/-- Writing the gram-path manifest `all.txt`: one line
`'{},{},{}\n'.format(h, D, path)` per entry of the returned dict, in
dict order. -/
def manifestLines (m : List ((Nat × Nat) × String)) : List String :=
  m.map (fun e => toString e.1.1 ++ "," ++ toString e.1.2 ++ "," ++ e.2 ++ "\n")

/-- Embedding of `re.match(r"([0-9]+),([0-9]+),(.+)\n", l)` of the experiments branch
of `main`, returning the three captured groups.  The captured `h` and `D`
are the digit strings themselves (the source never converts them back to
integers). -/
def parseManifestLine (l : String) : Option ((String × String) × String) :=
  let cs := l.data
  let d1 := cs.takeWhile Char.isDigit
  let r1 := cs.dropWhile Char.isDigit
  if d1.isEmpty then none
  else
    match r1 with
    | ',' :: r2 =>
        let d2 := r2.takeWhile Char.isDigit
        let r3 := r2.dropWhile Char.isDigit
        if d2.isEmpty then none
        else
          match r3 with
          | ',' :: r4 =>
              let body := r4.takeWhile (fun c => !(c == '\n'))
              let r5 := r4.dropWhile (fun c => !(c == '\n'))
              if body.isEmpty then none
              else
                match r5 with
                | '\n' :: _ => some ((⟨d1⟩, ⟨d2⟩), ⟨body⟩)
                | _ => none
          | _ => none
    | _ => none

/-- Re-reading the manifest in experiments mode: every line that matches
the pattern contributes `gram_paths[h, D] = path` with the *string*
groups as the key; non-matching lines are skipped. -/
def readManifest (ls : List String) : List ((String × String) × String) :=
  ls.foldl
    (fun m l =>
      match parseManifestLine l with
      | some kv => dictInsert m kv.1 kv.2
      | none => m)
    []

/-! ## Concrete data for closed statements

A small file system, directory and XML oracle used by the closed
witness/counterexample statements below. -/

/-- File system containing a `.prp` file (termination property) for each
of the two tasks. -/
def fsW : String → Option String := fun q =>
  if q = "a_true-x.prp" then some "CHECK(i,LTL(F end))"
  else if q = "b_true-x.prp" then some "CHECK(i,LTL(F end))"
  else none

/-- A well-formed `<sourcefile>` entry for a task. -/
def sfW (task : String) : SourceFile :=
  ⟨task, none,
   [⟨"status", "u"⟩, ⟨"cputime", "1s"⟩, ⟨"walltime", "1s"⟩,
    ⟨"memUsage", "1"⟩]⟩

/-- XML oracle: two logs of the same tool `T` covering different tasks,
and one log of a second tool `U`. -/
def xmlOfW : String → BenchXml := fun f =>
  if f = "t.1.results.sv-comp15.c.xml" then ⟨"T", [sfW "a_true-x.c"]⟩
  else if f = "t.2.results.sv-comp15.c.xml" then ⟨"T", [sfW "b_true-x.c"]⟩
  else if f = "u.1.results.sv-comp15.c.xml" then ⟨"U", [sfW "b_true-x.c"]⟩
  else ⟨"Z", []⟩

/-- Listing with two result files of the same tool `T`. -/
def listDup : List String :=
  ["t.1.results.sv-comp15.c.xml", "t.2.results.sv-comp15.c.xml"]

/-- Listing with one file each of tools `T` and `U` plus a non-matching
entry. -/
def listTU : List String :=
  ["t.1.results.sv-comp15.c.xml", "u.1.results.sv-comp15.c.xml", "README.md"]

/-- The parse results of the matching files of `listTU`. -/
def parsedTU : List (String × DataFrame) :=
  okD (parseAll (fun f => svcompXmlToDataframe fsW (xmlOfW f))
    (listTU.filter (fun f => categoryMatch "c" f))) []

/-- Default pair used to name `okD` projections in closed statements. -/
def dfltDF : String × DataFrame := ("", ⟨[], []⟩)

/-! ## Correctness of the derivative-based regex matcher -/

theorem rmatch_fail_iff {s : List Char} : RMatch RE.fail s ↔ False := by
  constructor
  · intro h; cases h
  · intro h; exact h.elim

theorem rmatch_eps_iff {s : List Char} : RMatch RE.eps s ↔ s = [] := by
  constructor
  · intro h; cases h; rfl
  · rintro rfl; exact RMatch.eps

theorem rmatch_cls_iff {f : Char → Bool} {s : List Char} :
    RMatch (RE.cls f) s ↔ ∃ c, s = [c] ∧ f c = true := by
  constructor
  · intro h
    cases h with
    | cls hf => exact ⟨_, rfl, hf⟩
  · rintro ⟨c, rfl, hf⟩; exact RMatch.cls hf

theorem rmatch_seq_iff {a b : RE} {s : List Char} :
    RMatch (RE.seq a b) s ↔ ∃ u v, s = u ++ v ∧ RMatch a u ∧ RMatch b v := by
  constructor
  · intro h
    cases h with
    | seq h1 h2 => exact ⟨_, _, rfl, h1, h2⟩
  · rintro ⟨u, v, rfl, h1, h2⟩; exact RMatch.seq h1 h2

theorem rmatch_alt_iff {a b : RE} {s : List Char} :
    RMatch (RE.alt a b) s ↔ RMatch a s ∨ RMatch b s := by
  constructor
  · intro h
    cases h with
    | altL h1 => exact Or.inl h1
    | altR h2 => exact Or.inr h2
  · rintro (h1 | h2)
    · exact RMatch.altL h1
    · exact RMatch.altR h2

theorem nullable_iff : ∀ r : RE, nullable r = true ↔ RMatch r [] := by
  intro r
  induction r with
  | fail => simp [nullable, rmatch_fail_iff]
  | eps => simp [nullable, rmatch_eps_iff]
  | cls f => simp [nullable, rmatch_cls_iff]
  | seq a b iha ihb =>
      simp only [nullable, Bool.and_eq_true, iha, ihb, rmatch_seq_iff]
      constructor
      · rintro ⟨h1, h2⟩; exact ⟨[], [], rfl, h1, h2⟩
      · rintro ⟨u, v, huv, h1, h2⟩
        rcases List.append_eq_nil.mp huv.symm with ⟨rfl, rfl⟩
        exact ⟨h1, h2⟩
  | alt a b iha ihb =>
      simp [nullable, iha, ihb, rmatch_alt_iff]
  | star a iha =>
      simp only [nullable, true_iff]
      exact RMatch.starNil

theorem rmatch_seq_fail_left {b : RE} {s : List Char} :
    RMatch (RE.seq RE.fail b) s ↔ False := by
  rw [rmatch_seq_iff]
  constructor
  · rintro ⟨u, v, _, h1, _⟩; exact (rmatch_fail_iff.mp h1)
  · intro h; exact h.elim

theorem rmatch_seq_fail_right {a : RE} {s : List Char} :
    RMatch (RE.seq a RE.fail) s ↔ False := by
  rw [rmatch_seq_iff]
  constructor
  · rintro ⟨u, v, _, _, h2⟩; exact (rmatch_fail_iff.mp h2)
  · intro h; exact h.elim

theorem rmatch_seq_eps_left {b : RE} {s : List Char} :
    RMatch (RE.seq RE.eps b) s ↔ RMatch b s := by
  rw [rmatch_seq_iff]
  constructor
  · rintro ⟨u, v, rfl, h1, h2⟩
    rw [rmatch_eps_iff.mp h1]; simpa using h2
  · intro h; exact ⟨[], s, rfl, RMatch.eps, h⟩

theorem rmatch_seq_eps_right {a : RE} {s : List Char} :
    RMatch (RE.seq a RE.eps) s ↔ RMatch a s := by
  rw [rmatch_seq_iff]
  constructor
  · rintro ⟨u, v, rfl, h1, h2⟩
    rw [rmatch_eps_iff.mp h2]; simpa using h1
  · intro h; exact ⟨s, [], by simp, h, RMatch.eps⟩

theorem mkSeq_iff (a b : RE) (s : List Char) :
    RMatch (mkSeq a b) s ↔ RMatch (RE.seq a b) s := by
  cases a <;> cases b <;>
    simp only [mkSeq] <;>
    simp [rmatch_fail_iff, rmatch_seq_fail_left, rmatch_seq_fail_right,
      rmatch_seq_eps_left, rmatch_seq_eps_right]

theorem mkAlt_iff (a b : RE) (s : List Char) :
    RMatch (mkAlt a b) s ↔ RMatch (RE.alt a b) s := by
  cases a <;> cases b <;>
    simp only [mkAlt] <;>
    simp [rmatch_fail_iff, rmatch_alt_iff]

theorem rmatch_star_aux {q : RE} {t : List Char} (h : RMatch q t) :
    ∀ a : RE, q = RE.star a →
      t = [] ∨ ∃ u v, u ≠ [] ∧ t = u ++ v ∧ RMatch a u ∧ RMatch (RE.star a) v := by
  induction h with
  | eps => intro a ha; exact RE.noConfusion ha
  | cls _ => intro a ha; exact RE.noConfusion ha
  | seq _ _ _ _ => intro a ha; exact RE.noConfusion ha
  | altL _ _ => intro a ha; exact RE.noConfusion ha
  | altR _ _ => intro a ha; exact RE.noConfusion ha
  | starNil => intro a _; exact Or.inl rfl
  | starCons h1 h2 ih1 ih2 =>
      intro a ha
      injection ha with ha'
      subst ha'
      rename_i s t'
      by_cases hs : s = []
      · subst hs
        simpa using ih2 _ rfl
      · exact Or.inr ⟨s, t', hs, rfl, h1, h2⟩

theorem rmatch_star_elim {a : RE} {t : List Char} (h : RMatch (RE.star a) t) :
    t = [] ∨ ∃ u v, u ≠ [] ∧ t = u ++ v ∧ RMatch a u ∧ RMatch (RE.star a) v :=
  rmatch_star_aux h a rfl

theorem deriv_iff : ∀ (r : RE) (c : Char) (s : List Char),
    RMatch (deriv r c) s ↔ RMatch r (c :: s) := by
  intro r
  induction r with
  | fail =>
      intro c s; simp [deriv, rmatch_fail_iff]
  | eps =>
      intro c s
      rw [show deriv RE.eps c = RE.fail from rfl, rmatch_fail_iff,
        rmatch_eps_iff]
      simp
  | cls f =>
      intro c s
      by_cases hf : f c = true
      · rw [show deriv (RE.cls f) c = RE.eps by simp [deriv, hf],
          rmatch_eps_iff, rmatch_cls_iff]
        constructor
        · rintro rfl; exact ⟨c, rfl, hf⟩
        · rintro ⟨c', hc, _⟩
          injection hc with h1 h2
      · rw [show deriv (RE.cls f) c = RE.fail by simp [deriv, hf],
          rmatch_fail_iff, rmatch_cls_iff]
        simp only [false_iff, not_exists]
        rintro c' ⟨hc, hfc⟩
        injection hc with h1 h2
        subst h1
        exact hf hfc
  | seq a b iha ihb =>
      intro c s
      by_cases hn : nullable a = true
      · rw [show deriv (RE.seq a b) c =
            mkAlt (mkSeq (deriv a c) b) (deriv b c) by simp [deriv, hn],
          mkAlt_iff, rmatch_alt_iff, mkSeq_iff]
        simp only [rmatch_seq_iff, iha, ihb]
        constructor
        · rintro (⟨u, v, rfl, h1, h2⟩ | h2)
          · exact ⟨c :: u, v, rfl, h1, h2⟩
          · exact ⟨[], c :: s, rfl, (nullable_iff a).mp hn, h2⟩
        · rintro ⟨u, v, huv, h1, h2⟩
          cases u with
          | nil =>
              right
              rw [List.nil_append] at huv
              rw [← huv] at h2
              exact h2
          | cons c0 u' =>
              left
              rw [List.cons_append] at huv
              injection huv with hc hs
              subst hc
              exact ⟨u', v, hs, h1, h2⟩
      · rw [show deriv (RE.seq a b) c = mkSeq (deriv a c) b by
            simp [deriv, hn],
          mkSeq_iff]
        simp only [rmatch_seq_iff, iha]
        constructor
        · rintro ⟨u, v, rfl, h1, h2⟩
          exact ⟨c :: u, v, rfl, h1, h2⟩
        · rintro ⟨u, v, huv, h1, h2⟩
          cases u with
          | nil =>
              exact absurd ((nullable_iff a).mpr h1) (by simpa using hn)
          | cons c0 u' =>
              rw [List.cons_append] at huv
              injection huv with hc hs
              subst hc
              exact ⟨u', v, hs, h1, h2⟩
  | alt a b iha ihb =>
      intro c s
      rw [show deriv (RE.alt a b) c = mkAlt (deriv a c) (deriv b c) from rfl,
        mkAlt_iff, rmatch_alt_iff, rmatch_alt_iff, iha, ihb]
  | star a iha =>
      intro c s
      rw [show deriv (RE.star a) c = mkSeq (deriv a c) (RE.star a) from rfl,
        mkSeq_iff]
      simp only [rmatch_seq_iff, iha]
      constructor
      · rintro ⟨u, v, rfl, h1, h2⟩
        exact RMatch.starCons (s := c :: u) h1 h2
      · intro h
        rcases rmatch_star_elim h with h0 | ⟨u, v, hne, huv, h1, h2⟩
        · exact absurd h0 (by simp)
        · cases u with
          | nil => exact absurd rfl hne
          | cons c0 u' =>
              rw [List.cons_append] at huv
              injection huv with hc hs
              subst hc
              exact ⟨u', v, hs, h1, h2⟩

theorem matchesPrefixB_iff : ∀ (s : List Char) (r : RE),
    matchesPrefixB r s = true ↔ ∃ t u, s = t ++ u ∧ RMatch r t := by
  intro s
  induction s with
  | nil =>
      intro r
      simp only [matchesPrefixB, nullable_iff]
      constructor
      · intro h; exact ⟨[], [], rfl, h⟩
      · rintro ⟨t, u, htu, h⟩
        rcases List.append_eq_nil.mp htu.symm with ⟨rfl, rfl⟩
        exact h
  | cons c s ih =>
      intro r
      simp only [matchesPrefixB, Bool.or_eq_true, nullable_iff, ih]
      constructor
      · rintro (h | ⟨t, u, rfl, h⟩)
        · exact ⟨[], c :: s, rfl, h⟩
        · exact ⟨c :: t, u, rfl, (deriv_iff r c t).mp h⟩
      · rintro ⟨t, u, htu, h⟩
        cases t with
        | nil =>
            left; simpa [← htu] using h
        | cons c0 t' =>
            injection htu with hc hs
            subst hc
            exact Or.inr ⟨t', u, hs, (deriv_iff r c t').mpr h⟩

theorem research_iff : ∀ (s : List Char) (r : RE),
    research r s = true ↔ ∃ pre mid post, s = pre ++ mid ++ post ∧ RMatch r mid := by
  intro s
  induction s with
  | nil =>
      intro r
      simp only [research, nullable_iff]
      constructor
      · intro h; exact ⟨[], [], [], rfl, h⟩
      · rintro ⟨pre, mid, post, h0, h⟩
        rcases List.append_eq_nil.mp h0.symm with ⟨h1, rfl⟩
        rcases List.append_eq_nil.mp h1 with ⟨rfl, rfl⟩
        exact h
  | cons c s ih =>
      intro r
      simp only [research, Bool.or_eq_true, matchesPrefixB_iff, ih]
      constructor
      · rintro (⟨t, u, htu, h⟩ | ⟨pre, mid, post, hs, h⟩)
        · exact ⟨[], t, u, by simpa using htu, h⟩
        · exact ⟨c :: pre, mid, post, by simp [hs], h⟩
      · rintro ⟨pre, mid, post, hs, h⟩
        cases pre with
        | nil =>
            left
            exact ⟨mid, post, by simpa using hs, h⟩
        | cons c0 pre' =>
            right
            injection hs with hc hrest
            subst hc
            exact ⟨pre', mid, post, hrest, h⟩

theorem research_smatch (r : RE) (s : String) :
    research r s.data = true ↔ SMatch r s := by
  rw [research_iff]
  rfl

theorem rmatch_litChars : ∀ (w s : List Char),
    RMatch (litCharsRE w) s ↔ s = w := by
  intro w
  induction w with
  | nil =>
      intro s; simp [litCharsRE, rmatch_eps_iff]
  | cons c w ih =>
      intro s
      simp only [litCharsRE, List.foldr_cons]
      rw [show (List.foldr (fun c r => RE.seq (RE.cls (fun x => x == c)) r)
        RE.eps w) = litCharsRE w from rfl, rmatch_seq_iff]
      constructor
      · rintro ⟨u, v, rfl, h1, h2⟩
        rcases rmatch_cls_iff.mp h1 with ⟨c', rfl, hc⟩
        rw [ih] at h2
        subst h2
        simp at hc
        subst hc
        rfl
      · rintro rfl
        refine ⟨[c], w, rfl, RMatch.cls (by simp), (ih w).mpr rfl⟩

theorem research_lit (w s : String) :
    research (litRE w) s.data = true ↔ ∃ a b, s.data = a ++ w.data ++ b := by
  rw [show litRE w = litCharsRE w.data from rfl, research_iff]
  constructor
  · rintro ⟨pre, mid, post, hs, h⟩
    rw [rmatch_litChars] at h
    subst h
    exact ⟨pre, post, hs⟩
  · rintro ⟨a, b, hs⟩
    exact ⟨a, w.data, b, hs, (rmatch_litChars w.data w.data).mpr rfl⟩

/-! ## Association-list lemmas -/

theorem dictInsert_of_not_mem {α β : Type} [DecidableEq α]
    {m : List (α × β)} {k : α} (v : β) (h : k ∉ m.map Prod.fst) :
    dictInsert m k v = m ++ [(k, v)] := by
  induction m with
  | nil => rfl
  | cons x m ih =>
      simp only [List.map_cons, List.mem_cons, not_or] at h
      simp only [dictInsert, if_neg h.1, List.cons_append]
      rw [ih h.2]

theorem dictFind_eq_none {α β : Type} [DecidableEq α]
    {m : List (α × β)} {k : α} (h : k ∉ m.map Prod.fst) :
    dictFind m k = none := by
  induction m with
  | nil => rfl
  | cons x m ih =>
      simp only [List.map_cons, List.mem_cons, not_or] at h
      simp only [dictFind, if_neg h.1]
      exact ih h.2

theorem dictFind_of_mem_nodup {α β : Type} [DecidableEq α]
    {m : List (α × β)} (h : (m.map Prod.fst).Nodup) {k : α} {v : β}
    (hm : (k, v) ∈ m) : dictFind m k = some v := by
  induction m with
  | nil => exact absurd hm (List.not_mem_nil _)
  | cons x m ih =>
      simp only [List.map_cons, List.nodup_cons] at h
      rcases List.mem_cons.mp hm with h0 | h0
      · rw [← h0]
        simp [dictFind]
      · have hk : k ∈ m.map Prod.fst :=
          List.mem_map.mpr ⟨(k, v), h0, rfl⟩
        have hne : ¬ k = x.1 := fun he => h.1 (he ▸ hk)
        simp only [dictFind, if_neg hne]
        exact ih h.2 h0

theorem dictFind_congr_perm {α β : Type} [DecidableEq α]
    {l l' : List (α × β)} (hp : l.Perm l') (h : (l.map Prod.fst).Nodup)
    (k : α) : dictFind l k = dictFind l' k := by
  have h' : (l'.map Prod.fst).Nodup := ((hp.map Prod.fst).nodup_iff).mp h
  by_cases hk : k ∈ l.map Prod.fst
  · rcases List.mem_map.mp hk with ⟨⟨k0, v⟩, hm, hk0⟩
    cases hk0
    rw [dictFind_of_mem_nodup h hm,
      dictFind_of_mem_nodup h' (hp.mem_iff.mp hm)]
  · rw [dictFind_eq_none hk,
      dictFind_eq_none (fun hc => hk (((hp.map Prod.fst).mem_iff).mpr hc))]

theorem dictOf_from {α β : Type} [DecidableEq α] :
    ∀ (l acc : List (α × β)),
      ((acc ++ l).map Prod.fst).Nodup →
      l.foldl (fun m kv => dictInsert m kv.1 kv.2) acc = acc ++ l := by
  intro l
  induction l with
  | nil => intro acc _; simp
  | cons x l ih =>
      intro acc h
      have hx : x.1 ∉ acc.map Prod.fst := by
        intro hc
        have h2 : x.1 ∈ (x :: l).map Prod.fst := by simp
        rw [List.map_append, List.nodup_append] at h
        exact h.2.2 hc h2
      rw [List.foldl_cons, dictInsert_of_not_mem x.2 hx]
      have hres := ih (acc ++ [x]) (by simpa using h)
      rw [hres]
      simp

theorem dictOf_eq_self {α β : Type} [DecidableEq α]
    {l : List (α × β)} (h : (l.map Prod.fst).Nodup) : dictOf l = l :=
  dictOf_from l [] (by simpa using h)

/-! ## Sortedness of the tool dict -/

theorem insKey_perm (x : String × DataFrame) :
    ∀ l : List (String × DataFrame), (insKey x l).Perm (x :: l) := by
  intro l
  induction l with
  | nil => exact List.Perm.refl _
  | cons y ys ih =>
      by_cases h : x.1 < y.1
      · simp only [insKey, if_pos h]
        exact List.Perm.refl _
      · simp only [insKey, if_neg h]
        exact ((ih.cons y).trans (List.Perm.swap x y ys))

theorem sortK_perm : ∀ l : List (String × DataFrame), (sortK l).Perm l := by
  intro l
  induction l with
  | nil => exact List.Perm.refl _
  | cons x l ih =>
      exact (insKey_perm x (sortK l)).trans (ih.cons x)

theorem mem_insKey {x z : String × DataFrame} {l : List (String × DataFrame)}
    (hm : z ∈ insKey x l) : z = x ∨ z ∈ l :=
  List.mem_cons.mp ((insKey_perm x l).mem_iff.mp hm)

/-- The weak key order established by `insKey`. -/
def leKey (a b : String × DataFrame) : Prop := ¬ b.1 < a.1

theorem insKey_pairwise {x : String × DataFrame} :
    ∀ {l : List (String × DataFrame)}, l.Pairwise leKey →
      (insKey x l).Pairwise leKey := by
  intro l
  induction l with
  | nil =>
      intro _
      exact List.pairwise_singleton leKey x
  | cons y ys ih =>
      intro h
      rcases List.pairwise_cons.mp h with ⟨hy, hys⟩
      by_cases hlt : x.1 < y.1
      · simp only [insKey, if_pos hlt]
        refine List.pairwise_cons.mpr ⟨?_, h⟩
        intro z hz
        rcases List.mem_cons.mp hz with rfl | hz'
        · exact fun hc => lt_asymm hlt hc
        · have hyz : ¬ z.1 < y.1 := hy z hz'
          intro hc
          exact hyz (lt_trans hc hlt)
      · simp only [insKey, if_neg hlt]
        refine List.pairwise_cons.mpr ⟨?_, ih hys⟩
        intro z hz
        rcases mem_insKey hz with rfl | hz'
        · exact hlt
        · exact hy z hz'

theorem sortK_pairwise : ∀ l : List (String × DataFrame),
    (sortK l).Pairwise leKey := by
  intro l
  induction l with
  | nil => exact List.Pairwise.nil
  | cons x l ih => exact insKey_pairwise ih

theorem sortK_eq_of_perm {l₁ l₂ : List (String × DataFrame)}
    (hp : l₁.Perm l₂) (hnd : (l₁.map Prod.fst).Nodup) :
    sortK l₁ = sortK l₂ := by
  have hperm : (sortK l₁).Perm (sortK l₂) :=
    ((sortK_perm l₁).trans hp).trans (sortK_perm l₂).symm
  have hstrict : ∀ (l : List (String × DataFrame)),
      (l.map Prod.fst).Nodup → l.Pairwise leKey →
      l.Pairwise (fun a b => a.1 < b.1) := by
    intro l hn hw
    have hne : l.Pairwise (fun a b => a.1 ≠ b.1) :=
      (List.pairwise_map).mp hn
    exact (hw.and hne).imp
      (fun h => lt_of_le_of_ne (not_lt.mp h.1) h.2)
  have hnd₁ : ((sortK l₁).map Prod.fst).Nodup :=
    (((sortK_perm l₁).map Prod.fst).nodup_iff).mpr hnd
  have hnd₂ : ((sortK l₂).map Prod.fst).Nodup :=
    ((hperm.map Prod.fst).nodup_iff).mp hnd₁
  haveI : IsAntisymm (String × DataFrame) (fun a b => a.1 < b.1) :=
    ⟨fun a b h1 h2 => absurd (lt_trans h1 h2) (lt_irrefl _)⟩
  exact List.eq_of_perm_of_sorted hperm
    (hstrict _ hnd₁ (sortK_pairwise l₁))
    (hstrict _ hnd₂ (sortK_pairwise l₂))

/-! ## parseAll and foldlM helpers -/

theorem parseAll_ok {p : String → Except ParseErr (String × DataFrame)} :
    ∀ {l : List String}, (∀ f ∈ l, ∃ r, p f = Except.ok r) →
      parseAll p l = Except.ok (l.filterMap (fun f => (p f).toOption)) := by
  intro l
  induction l with
  | nil => intro _; rfl
  | cons f l ih =>
      intro h
      obtain ⟨r, hr⟩ := h f (List.mem_cons_self f l)
      have hrest := ih (fun g hg => h g (List.mem_cons_of_mem f hg))
      simp only [parseAll, hr, hrest, List.filterMap_cons, Except.toOption,
        Bind.bind, Except.bind]
      rfl

theorem rows_fold_ok {fs : String → Option String} :
    ∀ (pre : List SourceFile),
      (∀ s ∈ pre, ∃ r, processSourceFile fs s = Except.ok r) →
      ∀ acc : List (String × List Cell),
        ∃ acc', pre.foldlM (addRow fs) acc = Except.ok acc' := by
  intro pre
  induction pre with
  | nil => intro _ acc; exact ⟨acc, rfl⟩
  | cons s pre ih =>
      intro h acc
      obtain ⟨r, hr⟩ := h s (List.mem_cons_self s pre)
      obtain ⟨acc', hacc⟩ :=
        ih (fun g hg => h g (List.mem_cons_of_mem s hg)) (dictInsert acc r.1 r.2)
      refine ⟨acc', ?_⟩
      simp only [List.foldlM_cons, addRow, hr, Bind.bind, Except.bind]
      exact hacc

theorem process_empty_columns {fs : String → Option String}
    {sf : SourceFile} (hc : sf.columns = []) :
    processSourceFile fs sf = Except.error ParseErr.missingColumns := by
  unfold processSourceFile
  rw [hc]
  rfl

theorem rows_fold_err {fs : String → Option String} {sf : SourceFile}
    (hc : sf.columns = []) (post : List SourceFile)
    (acc : List (String × List Cell)) :
    (sf :: post).foldlM (addRow fs) acc =
      Except.error ParseErr.missingColumns := by
  simp only [List.foldlM_cons, addRow, process_empty_columns hc]
  rfl

/-! ## The naming-convention capture is always true or false -/

theorem namingTok_cases {s : List Char} {t : String}
    (h : namingTok s = some t) : t = "true" ∨ t = "false" := by
  unfold namingTok at h
  by_cases h1 : "true-".data.isPrefixOf s
  · rw [if_pos h1] at h
    by_cases h2 : namingTail (s.drop 5) = true
    · rw [if_pos h2] at h
      exact Or.inl (Option.some.inj h).symm
    · rw [if_neg h2] at h
      exact absurd h (by simp)
  · rw [if_neg h1] at h
    by_cases h3 : "false-".data.isPrefixOf s
    · rw [if_pos h3] at h
      by_cases h4 : namingTail (s.drop 6) = true
      · rw [if_pos h4] at h
        exact Or.inr (Option.some.inj h).symm
      · rw [if_neg h4] at h
        exact absurd h (by simp)
    · rw [if_neg h3] at h
      exact absurd h (by simp)

theorem namingCont_cases : ∀ {s : List Char} {t : String},
    namingCont s = some t → t = "true" ∨ t = "false" := by
  intro s
  induction s with
  | nil => intro t h; exact absurd h (by simp [namingCont])
  | cons c rest ih =>
      intro t h
      unfold namingCont at h
      cases h1 : (if isNamingA c = true then namingCont rest else none) with
      | some v =>
          rw [h1] at h
          simp only [Option.orElse] at h
          have hv : v = t := Option.some.inj h
          subst hv
          by_cases hA : isNamingA c = true
          · rw [if_pos hA] at h1
            exact ih h1
          · rw [if_neg hA] at h1
            exact absurd h1 (by simp)
      | none =>
          rw [h1] at h
          simp only [Option.orElse] at h
          by_cases hU : c == '_'
          · rw [if_pos hU] at h
            exact namingTok_cases h
          · rw [if_neg hU] at h
            exact absurd h (by simp)

theorem namingMatch_cases {s : List Char} {t : String}
    (h : namingMatch s = some t) : t = "true" ∨ t = "false" := by
  cases s with
  | nil => exact absurd h (by simp [namingMatch])
  | cons c rest =>
      rw [show namingMatch (c :: rest) =
        (if isNamingA c = true then namingCont rest else none) from rfl] at h
      by_cases hA : isNamingA c = true
      · rw [if_pos hA] at h
        exact namingCont_cases h
      · rw [if_neg hA] at h
        exact absurd h (by simp)

/-! ## Further helper lemmas -/

theorem dumpGram_fold_dict {G τ K : Type}
    (kernel : List G → List τ → Nat → Nat → K) (graphs : List G)
    (types : List τ) (out_dir : String) :
    ∀ (l : List (Nat × Nat)) (acc : List (GramEff K) × List ((Nat × Nat) × String)),
      (l.foldl (dumpStep kernel graphs types out_dir) acc).2 =
        l.foldl (fun m hD => dictInsert m hD (gramBasePath out_dir hD.1 hD.2 ++ ".npy")) acc.2 := by
  intro l
  induction l with
  | nil => intro acc; rfl
  | cons x l ih =>
      intro acc
      rw [List.foldl_cons, List.foldl_cons, ih]
      rfl

theorem fold_dictInsert_map {α β : Type} [DecidableEq α] (f : α → β)
    {l : List α} (h : l.Nodup) :
    l.foldl (fun m k => dictInsert m k (f k)) [] = l.map (fun k => (k, f k)) := by
  have h1 : l.foldl (fun m k => dictInsert m k (f k)) [] =
      (l.map (fun k => (k, f k))).foldl (fun m kv => dictInsert m kv.1 kv.2) [] := by
    rw [List.foldl_map]
  rw [h1]
  apply dictOf_from
  have h2 : (l.map (fun k => (k, f k))).map Prod.fst = l := by
    rw [List.map_map]
    exact List.map_id'' (fun _ => rfl) l
  simpa [h2] using h

theorem mem_unionKeys {ts : List (String × DataFrame)} {p : String} :
    p ∈ unionKeys ts ↔ ∃ td ∈ ts, p ∈ rowKeys td.2 := by
  unfold unionKeys
  rw [List.mem_dedup, List.mem_flatMap]

theorem classify_spec (c : String) :
    (SMatch unreachRE c → classifyPrp c = Except.ok PropertyType.unreachability) ∧
    (¬ SMatch unreachRE c → SMatch memSafetyRE c →
      classifyPrp c = Except.ok PropertyType.memory_safety) ∧
    (¬ SMatch unreachRE c → ¬ SMatch memSafetyRE c → SMatch terminationRE c →
      classifyPrp c = Except.ok PropertyType.termination) ∧
    (¬ SMatch unreachRE c → ¬ SMatch memSafetyRE c → ¬ SMatch terminationRE c →
      classifyPrp c = Except.error ParseErr.unclassifiableProperty) := by
  unfold classifyPrp
  by_cases h1 : research unreachRE c.data = true
  · rw [if_pos h1]
    have hs1 := (research_smatch unreachRE c).mp h1
    exact ⟨fun _ => rfl, fun hn => absurd hs1 hn, fun hn => absurd hs1 hn,
      fun hn => absurd hs1 hn⟩
  · rw [if_neg h1]
    have hs1 : ¬ SMatch unreachRE c :=
      fun hs => h1 ((research_smatch unreachRE c).mpr hs)
    by_cases h2 : research memSafetyRE c.data = true
    · rw [if_pos h2]
      have hs2 := (research_smatch memSafetyRE c).mp h2
      exact ⟨fun hs => absurd hs hs1, fun _ _ => rfl,
        fun _ hn => absurd hs2 hn, fun _ hn => absurd hs2 hn⟩
    · rw [if_neg h2]
      have hs2 : ¬ SMatch memSafetyRE c :=
        fun hs => h2 ((research_smatch memSafetyRE c).mpr hs)
      by_cases h3 : research terminationRE c.data = true
      · rw [if_pos h3]
        have hs3 := (research_smatch terminationRE c).mp h3
        exact ⟨fun hs => absurd hs hs1, fun _ hs => absurd hs hs2,
          fun _ _ _ => rfl, fun _ _ hn => absurd hs3 hn⟩
      · rw [if_neg h3]
        have hs3 : ¬ SMatch terminationRE c :=
          fun hs => h3 ((research_smatch terminationRE c).mpr hs)
        exact ⟨fun hs => absurd hs hs1, fun _ hs => absurd hs hs2,
          fun _ _ hs => absurd hs hs3, fun _ _ _ => rfl⟩


/-! ## Claim theorems -/

/-- C1 (code bug): the mapping returned by `dump_gram` is keyed by the
integer pairs `(h, D)`, but re-reading the manifest written from it
reconstructs a mapping keyed by the *decimal digit strings* of `h` and
`D` (the experiments branch stores `m.group(1)`/`m.group(2)` without
converting them back to integers).  Concretely, dumping with
`h_set = [1]`, `D_set = [0]` returns the mapping `(1, 0) ↦ path`, while
the re-read manifest is `("1", "0") ↦ path`; looking up the integer key
pair that was written therefore fails (`KeyError` in Python),
contradicting the claimed round-trip. -/
theorem manifest_reread_has_string_keys :
    (dumpGram (fun _ => true) (fun _ => ()) (fun _ _ _ _ => ())
        ["g1"] ([] : List Unit) [1] [0] "g").2 =
      Except.ok [((1, 0), "g/K_h_1_D_0.gram.npy")] ∧
    readManifest (manifestLines [((1, 0), "g/K_h_1_D_0.gram.npy")]) =
      [(("1", "0"), "g/K_h_1_D_0.gram.npy")] :=
  ⟨rfl, rfl⟩

/-- C2: when every graph path exists and the grids are duplicate-free,
`dump_gram` returns exactly one entry per pair of the Cartesian product
`h_set × D_set` (so `|h_set| * |D_set|` entries), and the path stored
for `(h, D)` is `out_dir/K_h_{h}_D_{D}.gram.npy`, derived from `(h, D)`
alone. -/
theorem dump_gram_entries {G τ K : Type} (isfile : String → Bool)
    (load : String → G) (kernel : List G → List τ → Nat → Nat → K)
    (graph_paths : List String) (types : List τ) (h_set D_set : List Nat)
    (out_dir : String)
    (hex : ∀ p ∈ graph_paths, isfile p = true)
    (hh : h_set.Nodup) (hD : D_set.Nodup) :
    (dumpGram isfile load kernel graph_paths types h_set D_set out_dir).2 =
      Except.ok ((h_set.product D_set).map
        (fun hD' => (hD', gramBasePath out_dir hD'.1 hD'.2 ++ ".npy"))) ∧
    ((h_set.product D_set).map
        (fun hD' => (hD', gramBasePath out_dir hD'.1 hD'.2 ++ ".npy"))).length =
      h_set.length * D_set.length := by
  have hfind : graph_paths.find? (fun p => !isfile p) = none := by
    rw [List.find?_eq_none]
    intro p hp
    simp [hex p hp]
  constructor
  · have hred : (dumpGram isfile load kernel graph_paths types h_set D_set out_dir).2 =
        Except.ok (((h_set.product D_set).foldl
          (dumpStep kernel (graph_paths.map load) types out_dir) ([], [])).2) := by
      unfold dumpGram
      rw [hfind]
    have hsnd := dumpGram_fold_dict kernel (graph_paths.map load) types out_dir
      (h_set.product D_set) ([], [])
    have hndp : (h_set.product D_set).Nodup := hh.product hD
    have hmap := fold_dictInsert_map
      (fun hD' : Nat × Nat => gramBasePath out_dir hD'.1 hD'.2 ++ ".npy") hndp
    rw [hred, hsnd, hmap]
  · rw [List.length_map]
    exact List.length_product h_set D_set

/-- Witness for C2 at `h_set = [1,2]`, `D_set = [0,1]` (four entries). -/
theorem dump_gram_entries_witness :
    (dumpGram (fun _ => true) (fun _ => ()) (fun _ _ _ _ => ())
        ["g1"] ([] : List Unit) [1, 2] [0, 1] "out").2 =
      Except.ok (([1, 2].product [0, 1]).map
        (fun hD' => (hD', gramBasePath "out" hD'.1 hD'.2 ++ ".npy"))) ∧
    (([1, 2].product [0, 1]).map
        (fun hD' => (hD', gramBasePath "out" hD'.1 hD'.2 ++ ".npy"))).length =
      [1, 2].length * [0, 1].length :=
  dump_gram_entries (fun _ => true) (fun _ => ()) (fun _ _ _ _ => ())
    ["g1"] ([] : List Unit) [1, 2] [0, 1] "out"
    (by intro p _; rfl) (by decide) (by decide)

/-- C7: if some graph path does not exist, `dump_gram` raises
`GraphNotFoundError` (a `ValueError` in the source) for a missing path,
with no kernel invocation and no saved matrix (empty effect list) and no
partial mapping (the result is an error, not a dict). -/
theorem dump_gram_failfast {G τ K : Type} (isfile : String → Bool)
    (load : String → G) (kernel : List G → List τ → Nat → Nat → K)
    (graph_paths : List String) (types : List τ) (h_set D_set : List Nat)
    (out_dir : String)
    (hmiss : ∃ p ∈ graph_paths, isfile p = false) :
    (dumpGram isfile load kernel graph_paths types h_set D_set out_dir).1 = [] ∧
    ∃ p, p ∈ graph_paths ∧ isfile p = false ∧
      (dumpGram isfile load kernel graph_paths types h_set D_set out_dir).2 =
        Except.error (GramErr.graphNotFound p) := by
  have hsome : (graph_paths.find? (fun p => !isfile p)).isSome := by
    rw [List.find?_isSome]
    obtain ⟨p, hp, hfalse⟩ := hmiss
    exact ⟨p, hp, by simp [hfalse]⟩
  obtain ⟨p, hfind⟩ := Option.isSome_iff_exists.mp hsome
  have hmem := List.mem_of_find?_eq_some hfind
  have hprop := List.find?_some hfind
  have hfalse : isfile p = false := by simpa using hprop
  unfold dumpGram
  rw [hfind]
  exact ⟨rfl, ⟨p, hmem, hfalse, rfl⟩⟩

/-- Witness for C7: the second path is missing. -/
theorem dump_gram_failfast_witness :
    (dumpGram (fun q => !(q == "missing")) (fun _ => ())
        (fun _ _ _ _ => ()) ["g1", "missing"] ([] : List Unit) [1] [0] "out").1 = [] ∧
    ∃ p, p ∈ ["g1", "missing"] ∧ (fun q => !(q == "missing")) p = false ∧
      (dumpGram (fun q => !(q == "missing")) (fun _ => ())
          (fun _ _ _ _ => ()) ["g1", "missing"] ([] : List Unit) [1] [0] "out").2 =
        Except.error (GramErr.graphNotFound p) :=
  dump_gram_failfast (fun q => !(q == "missing")) (fun _ => ())
    (fun _ _ _ _ => ()) ["g1", "missing"] ([] : List Unit) [1] [0] "out"
    (by decide)

/-- C4: the expected-status extractor returns `Status.true` or
`Status.false` exactly when the base file name matches the naming
convention, raises `MissingExpectedStatusError` exactly when it does
not, and never returns `Status.unknown`. -/
theorem extract_expected_status_spec (p : String) :
    (extractExpectedStatus p = Except.ok Status.true ∨
     extractExpectedStatus p = Except.ok Status.false ∨
     extractExpectedStatus p = Except.error ParseErr.missingExpectedStatus) ∧
    (extractExpectedStatus p = Except.error ParseErr.missingExpectedStatus ↔
      namingMatch (basenameOf p) = none) ∧
    extractExpectedStatus p ≠ Except.ok Status.unknown := by
  cases hm : namingMatch (basenameOf p) with
  | none =>
      have hred : extractExpectedStatus p =
          Except.error ParseErr.missingExpectedStatus := by
        unfold extractExpectedStatus
        rw [hm]
      rw [hred]
      exact ⟨Or.inr (Or.inr rfl), ⟨fun _ => rfl, fun _ => rfl⟩, by simp⟩
  | some tok =>
      have hred : extractExpectedStatus p = Except.ok (matchStatusStr tok) := by
        unfold extractExpectedStatus
        rw [hm]
      rw [hred]
      rcases namingMatch_cases hm with rfl | rfl
      · rw [show matchStatusStr "true" = Status.true from by decide]
        exact ⟨Or.inl rfl,
          ⟨fun h => absurd h (by simp), fun h => absurd h (by simp)⟩, by simp⟩
      · rw [show matchStatusStr "false" = Status.false from by decide]
        exact ⟨Or.inr (Or.inl rfl),
          ⟨fun h => absurd h (by simp), fun h => absurd h (by simp)⟩, by simp⟩

/-- Witness for C4 at a matching and a non-matching file name. -/
theorem extract_expected_status_spec_witness :
    extractExpectedStatus "a_true-x.c" ≠ Except.ok Status.unknown ∧
    (extractExpectedStatus "foo.c" = Except.error ParseErr.missingExpectedStatus ↔
      namingMatch (basenameOf "foo.c") = none) :=
  ⟨(extract_expected_status_spec "a_true-x.c").2.2,
   (extract_expected_status_spec "foo.c").2.1⟩

/-- C5: the verdict resolver returns `true` whenever the raw status
string contains the substring `"true"` (even if it also contains
`"false"`), else `false` when it contains `"false"`, else `unknown`. -/
theorem match_status_first_match (s : String) :
    ((∃ a b, s.data = a ++ "true".data ++ b) → matchStatusStr s = Status.true) ∧
    ((¬ ∃ a b, s.data = a ++ "true".data ++ b) →
      (∃ a b, s.data = a ++ "false".data ++ b) →
      matchStatusStr s = Status.false) ∧
    ((¬ ∃ a b, s.data = a ++ "true".data ++ b) →
      (¬ ∃ a b, s.data = a ++ "false".data ++ b) →
      matchStatusStr s = Status.unknown) := by
  unfold matchStatusStr
  by_cases h1 : research (litRE "true") s.data = true
  · rw [if_pos h1]
    exact ⟨fun _ => rfl,
      fun hn _ => absurd ((research_lit "true" s).mp h1) hn,
      fun hn _ => absurd ((research_lit "true" s).mp h1) hn⟩
  · rw [if_neg h1]
    by_cases h2 : research (litRE "false") s.data = true
    · rw [if_pos h2]
      exact ⟨fun he => absurd ((research_lit "true" s).mpr he) h1,
        fun _ _ => rfl,
        fun _ hn => absurd ((research_lit "false" s).mp h2) hn⟩
    · rw [if_neg h2]
      exact ⟨fun he => absurd ((research_lit "true" s).mpr he) h1,
        fun _ he => absurd ((research_lit "false" s).mpr he) h2,
        fun _ _ => rfl⟩

/-- Witness for C5: a status string containing both `"true"` and
`"false"` resolves to `true`. -/
theorem match_status_first_match_witness :
    matchStatusStr "truefalse" = Status.true :=
  (match_status_first_match "truefalse").1 ⟨[], "false".data, rfl⟩

/-- C10: a result log with a benchmark-name attribute and zero task
entries parses successfully into the tool identifier and an empty frame
that still carries all eight columns. -/
theorem svcomp_xml_empty_log (fs : String → Option String) (name : String) :
    svcompXmlToDataframe fs ⟨name, []⟩ =
      Except.ok (name,
        ⟨["options", "status", "status_msg", "cputime", "walltime",
          "mem_usage", "expected_status", "property_type"], []⟩) := rfl

/-- C3: the property-type extractor consults `<task-stem>.prp` first and
falls back to the sibling `ALL.prp`; it raises `MissingPropertySpecError`
when neither exists, `UnclassifiablePropertyError` when the consulted
file exists but matches none of the three patterns, and otherwise
returns the first matching classification in the order unreachability,
memory-safety, termination. -/
theorem extract_property_type_spec (fs : String → Option String) (p : String) :
    (fs (splitextRoot p ++ ".prp") = none →
      fs (joinPath (dirnameOf p) "ALL.prp") = none →
      extractPropertyType fs p = Except.error ParseErr.missingPropertySpec) ∧
    (∀ c, ((fs (splitextRoot p ++ ".prp")).orElse
        (fun _ => fs (joinPath (dirnameOf p) "ALL.prp"))) = some c →
      (SMatch unreachRE c →
        extractPropertyType fs p = Except.ok PropertyType.unreachability) ∧
      (¬ SMatch unreachRE c → SMatch memSafetyRE c →
        extractPropertyType fs p = Except.ok PropertyType.memory_safety) ∧
      (¬ SMatch unreachRE c → ¬ SMatch memSafetyRE c → SMatch terminationRE c →
        extractPropertyType fs p = Except.ok PropertyType.termination) ∧
      (¬ SMatch unreachRE c → ¬ SMatch memSafetyRE c → ¬ SMatch terminationRE c →
        extractPropertyType fs p = Except.error ParseErr.unclassifiableProperty)) := by
  constructor
  · intro h1 h2
    unfold extractPropertyType
    rw [h1, h2]
  · intro c hc
    cases hfs1 : fs (splitextRoot p ++ ".prp") with
    | some c0 =>
        have hcc : c0 = c := by
          rw [hfs1] at hc
          simpa [Option.orElse] using hc
        subst hcc
        have hred : extractPropertyType fs p = classifyPrp c0 := by
          unfold extractPropertyType
          rw [hfs1]
        rw [hred]
        exact classify_spec c0
    | none =>
        cases hfs2 : fs (joinPath (dirnameOf p) "ALL.prp") with
        | some c0 =>
            have hcc : c0 = c := by
              rw [hfs1, hfs2] at hc
              simpa [Option.orElse] using hc
            subst hcc
            have hred : extractPropertyType fs p = classifyPrp c0 := by
              unfold extractPropertyType
              rw [hfs1, hfs2]
            rw [hred]
            exact classify_spec c0
        | none =>
            rw [hfs1, hfs2] at hc
            simp [Option.orElse] at hc

/-- Witness for C3: a task whose own `.prp` file exists (no fallback)
and contains only the termination pattern. -/
theorem extract_property_type_spec_witness :
    extractPropertyType fsW "a_true-x.c" = Except.ok PropertyType.termination := by
  have h := (extract_property_type_spec fsW "a_true-x.c").2
    "CHECK(i,LTL(F end))" (by decide)
  refine h.2.2.1 ?_ ?_ ?_
  · intro hs
    exact absurd ((research_smatch unreachRE "CHECK(i,LTL(F end))").mpr hs)
      (by decide)
  · intro hs
    exact absurd ((research_smatch memSafetyRE "CHECK(i,LTL(F end))").mpr hs)
      (by decide)
  · exact (research_smatch terminationRE "CHECK(i,LTL(F end))").mp (by decide)

/-- C8 counterexample: a log whose *second* entry has no metric columns
while the first entry fails earlier for a different reason (its column
dict lacks `cputime`, a `KeyError` in Python).  Parsing aborts with that
earlier error, not with `MissingColumnsError`, so the claim as stated
(any entry without metric columns makes the parse raise
`MissingColumnsError`) is false; no table is returned either way. -/
theorem svcomp_xml_missing_columns_cex :
    (∃ sf ∈ ([⟨"x", none, [⟨"status", "ok"⟩]⟩, ⟨"y", none, []⟩] :
        List SourceFile), sf.columns = []) ∧
    svcompXmlToDataframe (fun _ => none)
        ⟨"T", [⟨"x", none, [⟨"status", "ok"⟩]⟩, ⟨"y", none, []⟩]⟩ =
      Except.error (ParseErr.keyError "cputime") ∧
    svcompXmlToDataframe (fun _ => none)
        ⟨"T", [⟨"x", none, [⟨"status", "ok"⟩]⟩, ⟨"y", none, []⟩]⟩ ≠
      Except.error ParseErr.missingColumns := by
  decide

/-- C8 amended: if some entry of the log has no metric columns, the
parse never returns a table; and if additionally every entry preceding
it parses successfully, the parse fails with `MissingColumnsError`
(the `assert` of `_columns_to_dict`). -/
theorem svcomp_xml_missing_columns (fs : String → Option String)
    (xml : BenchXml) (pre : List SourceFile) (sf : SourceFile)
    (post : List SourceFile)
    (hsplit : xml.sourcefiles = pre ++ sf :: post)
    (hcols : sf.columns = []) :
    (∀ e, svcompXmlToDataframe fs xml ≠ Except.ok e) ∧
    ((∀ s ∈ pre, ∃ r, processSourceFile fs s = Except.ok r) →
      svcompXmlToDataframe fs xml = Except.error ParseErr.missingColumns) := by
  constructor
  · intro e hc
    unfold svcompXmlToDataframe at hc
    rw [hsplit, List.foldlM_append] at hc
    cases hfold : pre.foldlM (addRow fs) ([] : List (String × List Cell)) with
    | error err =>
        rw [hfold] at hc
        simp [Bind.bind, Except.bind] at hc
    | ok acc =>
        rw [hfold] at hc
        rw [show ((Except.ok acc : Except ParseErr (List (String × List Cell))) >>=
            fun b' => (sf :: post).foldlM (addRow fs) b') =
            (sf :: post).foldlM (addRow fs) acc from rfl] at hc
        rw [rows_fold_err hcols post acc] at hc
        simp [Bind.bind, Except.bind] at hc
  · intro hpre
    obtain ⟨acc, hacc⟩ := rows_fold_ok pre hpre []
    unfold svcompXmlToDataframe
    rw [hsplit, List.foldlM_append, hacc]
    rw [show ((Except.ok acc : Except ParseErr (List (String × List Cell))) >>=
        fun b' => (sf :: post).foldlM (addRow fs) b') =
        (sf :: post).foldlM (addRow fs) acc from rfl]
    rw [rows_fold_err hcols post acc]
    rfl

/-- Witness for C8 amended: the entry with no columns is the first one,
so the preceding-entries hypothesis is vacuous. -/
theorem svcomp_xml_missing_columns_witness :
    svcompXmlToDataframe (fun _ => none) ⟨"T", [⟨"t", none, []⟩]⟩ =
      Except.error ParseErr.missingColumns :=
  (svcomp_xml_missing_columns (fun _ => none) ⟨"T", [⟨"t", none, []⟩]⟩
    [] ⟨"t", none, []⟩ [] rfl rfl).2
    (fun s hs => absurd hs (List.not_mem_nil s))

/-- C6 counterexample: two matching files of the same tool `T` make
`dict(category_results)` silently drop the earlier table, so task
`a_true-x.c` — present in the first parsed per-tool table — is missing
from the joined row set, contradicting the claimed union property; and
with no matching file at all, `pd.concat` on the empty dict raises
(`No objects to concatenate`) instead of succeeding. -/
theorem read_category_union_cex :
    ("a_true-x.c" ∈ rowKeys (okD (svcompXmlToDataframe fsW
        (xmlOfW "t.1.results.sv-comp15.c.xml")) dfltDF).2) ∧
    readCategory fsW xmlOfW listDup "c" =
      Except.ok (okD (readCategory fsW xmlOfW listDup "c") []) ∧
    ("a_true-x.c" ∉ unionKeys (okD (readCategory fsW xmlOfW listDup "c") [])) ∧
    readCategory fsW xmlOfW ["README.md"] "c" =
      Except.error ParseErr.noObjectsToConcatenate := by
  decide

/-- C6 amended: `read_category` parses exactly the directory entries
matching the category pattern (removing the non-matching entries changes
nothing), and — provided the matching files all parse and their tool
identifiers are pairwise distinct — when at least one file matches, the
join succeeds, its row set is the union of the task paths of all parsed
per-tool tables, and a task absent from one tool's table has an absent
value (`none`) in that tool's column group rather than being dropped or
raising. -/
theorem read_category_spec (fs : String → Option String)
    (xmlOf : String → BenchXml) (listing : List String) (category : String)
    (parsed : List (String × DataFrame))
    (hp : parseAll (fun f => svcompXmlToDataframe fs (xmlOf f))
      (listing.filter (fun f => categoryMatch category f)) = Except.ok parsed)
    (hnd : (parsed.map Prod.fst).Nodup) :
    (readCategory fs xmlOf listing category =
      readCategory fs xmlOf (listing.filter (fun f => categoryMatch category f))
        category) ∧
    (parsed ≠ [] →
      readCategory fs xmlOf listing category = Except.ok (sortK parsed) ∧
      (∀ q, q ∈ unionKeys (sortK parsed) ↔ ∃ td ∈ parsed, q ∈ rowKeys td.2) ∧
      (∀ t df q, (t, df) ∈ parsed → q ∉ rowKeys df →
        joinedLookup (sortK parsed) t q = none)) := by
  constructor
  · unfold readCategory
    rw [List.filter_filter]
    rw [List.filter_congr (fun a _ => by
      simp [Bool.and_self] : ∀ a ∈ listing,
        (categoryMatch category a && categoryMatch category a) =
          categoryMatch category a)]
  · intro hne
    have hdict : dictOf parsed = parsed := dictOf_eq_self hnd
    have hres : readCategory fs xmlOf listing category =
        Except.ok (sortK parsed) := by
      unfold readCategory
      rw [hp]
      rw [show ((Except.ok parsed :
          Except ParseErr (List (String × DataFrame))) >>= fun rs =>
          (if (dictOf rs).isEmpty = true then
            Except.error ParseErr.noObjectsToConcatenate
          else pure (sortK (dictOf rs)))) =
          (if (dictOf parsed).isEmpty = true then
            Except.error ParseErr.noObjectsToConcatenate
          else pure (sortK (dictOf parsed))) from rfl]
      rw [hdict]
      rw [if_neg (fun hc => hne (List.isEmpty_iff.mp hc))]
      rfl
    refine ⟨hres, ?_, ?_⟩
    · intro q
      rw [mem_unionKeys]
      constructor
      · rintro ⟨td, htd, hq⟩
        exact ⟨td, (sortK_perm parsed).mem_iff.mp htd, hq⟩
      · rintro ⟨td, htd, hq⟩
        exact ⟨td, (sortK_perm parsed).mem_iff.mpr htd, hq⟩
    · intro t df q htd hq
      have hnds : ((sortK parsed).map Prod.fst).Nodup :=
        (((sortK_perm parsed).map Prod.fst).nodup_iff).mpr hnd
      have hfind : dictFind (sortK parsed) t = some df :=
        dictFind_of_mem_nodup hnds ((sortK_perm parsed).mem_iff.mpr htd)
      unfold joinedLookup
      rw [hfind]
      exact dictFind_eq_none hq

/-- Witness for C6 amended: tools `T` and `U`, tasks `a_true-x.c` (only
in `T`'s log) and `b_true-x.c` (only in `U`'s log); `a_true-x.c` is in
the joined row set and `U`'s column group holds an absent value for
it. -/
theorem read_category_spec_witness :
    ("a_true-x.c" ∈ unionKeys (sortK parsedTU)) ∧
    joinedLookup (sortK parsedTU) "U" "a_true-x.c" = none := by
  have h := (read_category_spec fsW xmlOfW listTU "c" parsedTU rfl
    (by decide)).2 (by decide)
  constructor
  · exact (h.2.1 "a_true-x.c").mpr
      ⟨("T", (okD (svcompXmlToDataframe fsW
          (xmlOfW "t.1.results.sv-comp15.c.xml")) dfltDF).2),
        by decide, by decide⟩
  · exact h.2.2 "U"
      (okD (svcompXmlToDataframe fsW
        (xmlOfW "u.1.results.sv-comp15.c.xml")) dfltDF).2
      "a_true-x.c" (by decide) (by decide)

/-- C9 counterexample: the same two matching files of one tool `T`,
discovered in the two possible orders, yield different tables — the
`dict` collapse keeps whichever duplicate tool name comes last, so the
surviving rows differ (not merely their order). -/
theorem read_category_order_cex :
    listDup.Perm listDup.reverse ∧
    readCategory fsW xmlOfW listDup "c" ≠
      readCategory fsW xmlOfW listDup.reverse "c" := by
  decide

/-- C9 amended: aggregating a fixed set of matching files in any
discovery order yields the *same* result, provided every matching file
parses and the parsed tool identifiers are pairwise distinct (the joined
column groups are sorted by tool name, and the row sets agree). -/
theorem read_category_order_invariant (fs : String → Option String)
    (xmlOf : String → BenchXml) (l₁ l₂ : List String) (category : String)
    (hperm : l₁.Perm l₂)
    (hok : ∀ f ∈ l₁.filter (fun f => categoryMatch category f),
      ∃ r, svcompXmlToDataframe fs (xmlOf f) = Except.ok r)
    (hnd : (((l₁.filter (fun f => categoryMatch category f)).filterMap
        (fun f => (svcompXmlToDataframe fs (xmlOf f)).toOption)).map
        Prod.fst).Nodup) :
    readCategory fs xmlOf l₁ category = readCategory fs xmlOf l₂ category := by
  have hpm : (l₁.filter (fun f => categoryMatch category f)).Perm
      (l₂.filter (fun f => categoryMatch category f)) :=
    hperm.filter _
  have hok₂ : ∀ f ∈ l₂.filter (fun f => categoryMatch category f),
      ∃ r, svcompXmlToDataframe fs (xmlOf f) = Except.ok r :=
    fun f hf => hok f (hpm.mem_iff.mpr hf)
  have hp₁ := parseAll_ok (p := fun f => svcompXmlToDataframe fs (xmlOf f)) hok
  have hp₂ := parseAll_ok (p := fun f => svcompXmlToDataframe fs (xmlOf f)) hok₂
  have hparsedPerm :
      ((l₁.filter (fun f => categoryMatch category f)).filterMap
        (fun f => (svcompXmlToDataframe fs (xmlOf f)).toOption)).Perm
      ((l₂.filter (fun f => categoryMatch category f)).filterMap
        (fun f => (svcompXmlToDataframe fs (xmlOf f)).toOption)) :=
    hpm.filterMap _
  have hnd₂ := ((hparsedPerm.map Prod.fst).nodup_iff).mp hnd
  unfold readCategory
  rw [hp₁, hp₂]
  rw [show ∀ rs : List (String × DataFrame),
      ((Except.ok rs : Except ParseErr (List (String × DataFrame))) >>=
        fun rs => (if (dictOf rs).isEmpty = true then
          Except.error ParseErr.noObjectsToConcatenate
        else pure (sortK (dictOf rs)))) =
      (if (dictOf rs).isEmpty = true then
        Except.error ParseErr.noObjectsToConcatenate
      else pure (sortK (dictOf rs))) from fun _ => rfl]
  rw [show ∀ rs : List (String × DataFrame),
      ((Except.ok rs : Except ParseErr (List (String × DataFrame))) >>=
        fun rs => (if (dictOf rs).isEmpty = true then
          Except.error ParseErr.noObjectsToConcatenate
        else pure (sortK (dictOf rs)))) =
      (if (dictOf rs).isEmpty = true then
        Except.error ParseErr.noObjectsToConcatenate
      else pure (sortK (dictOf rs))) from fun _ => rfl]
  rw [dictOf_eq_self hnd, dictOf_eq_self hnd₂]
  by_cases hq : (l₁.filter (fun f => categoryMatch category f)).filterMap
      (fun f => (svcompXmlToDataframe fs (xmlOf f)).toOption) = []
  · have h₂ : (l₂.filter (fun f => categoryMatch category f)).filterMap
        (fun f => (svcompXmlToDataframe fs (xmlOf f)).toOption) = [] := by
      rw [hq] at hparsedPerm
      exact hparsedPerm.symm.eq_nil
    rw [hq, h₂]
  · have h₂ : (l₂.filter (fun f => categoryMatch category f)).filterMap
        (fun f => (svcompXmlToDataframe fs (xmlOf f)).toOption) ≠ [] := by
      intro hc
      rw [hc] at hparsedPerm
      exact hq hparsedPerm.eq_nil
    rw [if_neg (fun hc => hq (List.isEmpty_iff.mp hc)),
      if_neg (fun hc => h₂ (List.isEmpty_iff.mp hc))]
    rw [sortK_eq_of_perm hparsedPerm hnd]

/-- Witness for C9 amended: the two-tool listing aggregated in two
orders produces identical tables. -/
theorem read_category_order_invariant_witness :
    readCategory fsW xmlOfW listTU "c" =
      readCategory fsW xmlOfW listTU.reverse "c" := by
  apply read_category_order_invariant
  · decide
  · intro f hf
    have hl : listTU.filter (fun f => categoryMatch "c" f) =
        ["t.1.results.sv-comp15.c.xml", "u.1.results.sv-comp15.c.xml"] := by
      decide
    rw [hl] at hf
    rcases List.mem_cons.mp hf with rfl | hf'
    · exact ⟨_, rfl⟩
    · rcases List.mem_cons.mp hf' with rfl | hf''
      · exact ⟨_, rfl⟩
      · exact absurd hf'' (List.not_mem_nil f)
  · decide

end PyPRSVT
